import Mathlib

/-!
Verification of the subset-sum solver (`src/Question1/subset-sum-solver.py`).

The program reads a CSV file; each non-blank row is a target followed by a
pool of candidates, all parsed as Python `Decimal`s under a process-wide
`getcontext().prec = 50`.  For every row it enumerates all `2^n` bitmask
subsets of the pool with early-abandon pruning, keeps the admissible subset
with the strictly greatest sum, and prints one output line per row.

We shallowly embed the program here:
* `Dec` models a finite Python `Decimal` as a coefficient and a power-of-ten
  exponent; comparison is by exact numeric value, and `decAdd` models
  `Decimal.__add__` under the 50-digit context: the exact aligned sum
  (`decAddRaw`) is rounded back to 50 significant coefficient digits with
  round-half-even (`roundPrec`).  (When rounding carries — `99…9 → 10…0` —
  the kept coefficient has a trailing zero where the library would also
  raise the exponent; the numeric value is identical and every observer in
  the program — comparisons, the integrality test and `normalize` — depends
  only on the value.)
* `parseChars` models the `Decimal` constructor's finite-numeral grammar
  (ASCII digits) after the constructor's removal of underscore digit
  separators; `pyDecAccepts` models full constructor acceptance, which also
  takes the special values `Inf`/`Infinity`/`NaN`/`sNaN` (case-insensitive,
  optionally signed, `NaN` with a digit payload).  A special value is
  accepted — no `ValueError` — but denotes no finite number, so `d` (the
  program's field conversion) yields a `Dec` exactly for finite numerals,
  and the run-level theorems about conversion failures assume
  `pyDecAccepts … = false`, i.e. that the constructor genuinely rejects the
  token.
* `normalize` models `Decimal.normalize()`: round to the 50-digit context
  (its `_fix` step), then strip the rightmost zero digits.
* `scanMask`/`bestResult` model the inner pruned bitmask loop and the
  per-row best-result fold; `bestResultUnpruned` is the unpruned reference
  enumeration described by the design document for comparison.
* `stepRow`/`runFrom`/`main` model the row loop of `main`, with stdout and
  stderr as string lists and an uncaught `ValueError` as an abort token.
-/

set_option maxRecDepth 100000

namespace SubsetSumSolver

/-- A finite Python `Decimal`: the numeric value is `c * 10 ^ e`. -/
structure Dec where
  c : Int
  e : Int
deriving DecidableEq

/-- The exact rational value of a `Dec`. -/
def valQ (x : Dec) : ℚ := (x.c : ℚ) * (10 : ℚ) ^ x.e

/-- `Decimal(0)`, the initial value of `best_sum` and of the running sum `s`. -/
def decZero : Dec := ⟨0, 0⟩

/-- One decimal digit as a character. -/
def digitChar (n : Nat) : Char :=
  if n = 0 then '0' else if n = 1 then '1' else if n = 2 then '2'
  else if n = 3 then '3' else if n = 4 then '4' else if n = 5 then '5'
  else if n = 6 then '6' else if n = 7 then '7' else if n = 8 then '8'
  else '9'

/-- Big-endian decimal digits of a natural number (fuelled recursion). -/
def natDigitsAux : Nat → Nat → List Char
  | 0, _ => []
  | fuel + 1, n =>
    if n < 10 then [digitChar n]
    else natDigitsAux fuel (n / 10) ++ [digitChar (n % 10)]

/-- Big-endian decimal digits of a natural number. -/
def natDigits (n : Nat) : List Char := natDigitsAux (n + 1) n

/-- Number of decimal digits (the coefficient length the context counts). -/
def numDigits (n : Nat) : Nat := (natDigits n).length

/-- The exact `Decimal` sum: align exponents at the minimum, add the
coefficients. -/
def decAddRaw (a b : Dec) : Dec :=
  if a.e ≤ b.e then ⟨a.c + b.c * 10 ^ (b.e - a.e).toNat, a.e⟩
  else ⟨a.c * 10 ^ (a.e - b.e).toNat + b.c, b.e⟩

/-- Drop the low `k` digits of a coefficient magnitude with `ROUND_HALF_EVEN`,
the context's default rounding: round up when the dropped part exceeds half a
unit, and on an exact tie when the kept part is odd. -/
def roundHalfEven (c k : Nat) : Nat :=
  if 10 ^ k < 2 * (c % 10 ^ k) ∨ (2 * (c % 10 ^ k) = 10 ^ k ∧ c / 10 ^ k % 2 = 1)
  then c / 10 ^ k + 1
  else c / 10 ^ k

/-- Round a `Dec` to the context's 50 significant coefficient digits with
round-half-even, as the arithmetic context does to every operation result. -/
def roundPrec (x : Dec) : Dec :=
  if numDigits x.c.natAbs ≤ 50 then x
  else
    ⟨if x.c < 0 then -(roundHalfEven x.c.natAbs (numDigits x.c.natAbs - 50) : Int)
      else (roundHalfEven x.c.natAbs (numDigits x.c.natAbs - 50) : Int),
     x.e + ((numDigits x.c.natAbs - 50 : Nat) : Int)⟩

/-- `Decimal.__add__` under `getcontext().prec = 50`: the exact aligned sum,
rounded to 50 significant digits. -/
def decAdd (a b : Dec) : Dec := roundPrec (decAddRaw a b)

/-- `Decimal` comparison `a < b` (by numeric value): align exponents at the
minimum and compare the integer coefficients. -/
def decLtB (a b : Dec) : Bool :=
  if a.e ≤ b.e then a.c < b.c * 10 ^ (b.e - a.e).toNat
  else a.c * 10 ^ (a.e - b.e).toNat < b.c

/-- `Decimal` comparison `a <= b` (by numeric value). -/
def decLeB (a b : Dec) : Bool :=
  if a.e ≤ b.e then a.c ≤ b.c * 10 ^ (b.e - a.e).toNat
  else a.c * 10 ^ (a.e - b.e).toNat ≤ b.c

/-- The whitespace removed by `str.strip()`: every character Python's
`str.isspace()` accepts. -/
def isSpace (ch : Char) : Bool :=
  ch = ' ' || ch = '\t' || ch = '\n' || ch = '\r' ||
  ch = '\x0b' || ch = '\x0c' || ch = '\x1c' || ch = '\x1d' ||
  ch = '\x1e' || ch = '\x1f' || ch = '\x85' || ch = '\xa0' ||
  ch = '\u1680' || ('\u2000' ≤ ch && ch ≤ '\u200a') || ch = '\u2028' ||
  ch = '\u2029' || ch = '\u202f' || ch = '\u205f' || ch = '\u3000'

/-- `str.strip()` on a list of characters. -/
def stripChars (l : List Char) : List Char :=
  ((l.dropWhile isSpace).reverse.dropWhile isSpace).reverse

/-- Character-level digit test, as in the `Decimal` numeral grammar. -/
def digitVal (ch : Char) : Nat := ch.toNat - 48

/-- Value of a big-endian digit string. -/
def digitsVal (l : List Char) : Nat :=
  l.foldl (fun a ch => 10 * a + digitVal ch) 0

/-- Consume a leading optional sign. -/
def parseSign (l : List Char) : Int × List Char :=
  match l with
  | [] => (1, [])
  | ch :: r =>
    if ch = '+' then (1, r)
    else if ch = '-' then (-1, r)
    else (1, ch :: r)

/-- Consume a maximal leading run of decimal digits. -/
def takeDigits : List Char → List Char × List Char
  | [] => ([], [])
  | ch :: r =>
    if ch.isDigit then
      let p := takeDigits r
      (ch :: p.1, p.2)
    else ([], ch :: r)

/-- Parse an optional exponent suffix (`e`/`E`, optional sign, digits). -/
def parseExp (l : List Char) : Option Int :=
  match l with
  | [] => some 0
  | ch :: r =>
    if ch = 'e' || ch = 'E' then
      let p := parseSign r
      let q := takeDigits p.2
      if q.1 ≠ [] ∧ q.2 = [] then some (p.1 * (digitsVal q.1 : Int)) else none
    else none

/-- Consume the fractional part: a dot followed by digits, if present. -/
def splitFrac : List Char → List Char × List Char
  | '.' :: r => takeDigits r
  | r => ([], r)

/-- The finite-numeral grammar of the `Decimal` constructor:
optional sign, digits with an optional fractional part (at least one digit
in total), optional decimal exponent. -/
def parseChars (l : List Char) : Option Dec :=
  let p := parseSign l
  let ip := takeDigits p.2
  let fr := splitFrac ip.2
  if ip.1 = [] ∧ fr.1 = [] then none
  else
    match parseExp fr.2 with
    | none => none
    | some ex => some ⟨p.1 * (digitsVal (ip.1 ++ fr.1) : Int), ex - fr.1.length⟩

/-- The constructor's removal of underscore digit separators
(`value.replace("_", "")` in the reference implementation). -/
def removeUnderscores (l : List Char) : List Char :=
  l.filter (fun ch => ch ≠ '_')

/-- `Decimal` construction from a string, on the finite numerals. -/
def parseDecimal (s : String) : Option Dec := parseChars (removeUnderscores s.data)

/-- The single-comma locale substitution of `d`. -/
def commaToDot (ch : Char) : Char := if ch = ',' then '.' else ch

/-- The token that `d` actually hands to the `Decimal` constructor (and embeds
in the `ValueError` message on failure): the field stripped, with the comma
replaced by a dot when it holds exactly one comma and no dot. -/
def dtokChars (l : List Char) : List Char :=
  let t := stripChars l
  if t.count ',' = 1 ∧ t.count '.' = 0 then t.map commaToDot else t

/-- String form of `dtokChars`. -/
def dtok (x : String) : String := String.mk (dtokChars x.data)

/-- The program's field-to-number conversion `d`, on the finite numerals:
`some` is the parsed `Decimal`; `none` covers every token the constructor
rejects (the raised `ValueError`) and also the special values, which the
finite model does not represent — run-level theorems therefore assume
`pyDecAccepts … = false` wherever they conclude that the program aborts. -/
def d (x : String) : Option Dec := parseChars (removeUnderscores (dtokChars x.data))

/-- `str` of a Python `int`. -/
def intStr (i : Int) : String :=
  String.mk ((if i < 0 then ['-'] else []) ++ natDigits i.natAbs)

/-- Python `int(x)` on a `Decimal`: truncation toward zero. -/
def pyInt (x : Dec) : Int :=
  if 0 ≤ x.e then x.c * 10 ^ x.e.toNat else Int.tdiv x.c (10 ^ (-x.e).toNat)

/-- `x == x.to_integral_value()`: the value is an exact integer, i.e. the
coefficient absorbs the negative exponent. -/
def isIntegralDec (x : Dec) : Bool :=
  if 0 ≤ x.e then true else x.c % (10 ^ (-x.e).toNat) == 0

/-- Strip trailing zero digits from the coefficient (fuelled). -/
def stripZeros : Nat → Int → Int → Dec
  | 0, c, e => ⟨c, e⟩
  | fuel + 1, c, e =>
    if c % 10 = 0 then stripZeros fuel (c / 10) (e + 1) else ⟨c, e⟩

/-- `Decimal.normalize()`: round to the 50-digit context (the `_fix` step),
then strip rightmost zeros; zero becomes `0E+0`. -/
def normalize (x : Dec) : Dec :=
  if x.c = 0 then ⟨0, 0⟩
  else stripZeros (roundPrec x).c.natAbs (roundPrec x).c (roundPrec x).e

/-- `format(x, "f")`: fixed-point rendering, never scientific. -/
def formatFChars (x : Dec) : List Char :=
  let sign := if x.c < 0 then ['-'] else ([] : List Char)
  let ds := natDigits x.c.natAbs
  if 0 ≤ x.e then sign ++ ds ++ List.replicate x.e.toNat '0'
  else
    let k := (-x.e).toNat
    if k < ds.length then
      sign ++ ds.take (ds.length - k) ++ '.' :: ds.drop (ds.length - k)
    else
      sign ++ '0' :: '.' :: (List.replicate (k - ds.length) '0' ++ ds)

/-- The program's canonical formatter `numstr`. -/
def numstr (x : Dec) : String :=
  if isIntegralDec x then intStr (pyInt x)
  else String.mk (formatFChars (normalize x))

/-- The subset of `arr` selected by the low bits of `mask`, in pool order. -/
def maskSubset : List Dec → Nat → List Dec
  | [], _ => []
  | a :: rest, mask =>
    if mask % 2 = 1 then a :: maskSubset rest (mask / 2)
    else maskSubset rest (mask / 2)

/-- The inner loop of the enumerator for one mask: walk the pool from the
lowest bit, accumulate the running sum `s`, and abandon (`none`, i.e.
`ok = False`) the moment the running sum exceeds the target.  On success
returns the final sum and the selected subset in pool order. -/
def scanMask (target : Dec) : List Dec → Nat → Dec → Option (Dec × List Dec)
  | [], _, s => some (s, [])
  | a :: rest, mask, s =>
    if mask % 2 = 1 then
      let s' := decAdd s a
      if decLtB target s' then none
      else
        match scanMask target rest (mask / 2) s' with
        | none => none
        | some p => some (p.1, a :: p.2)
    else scanMask target rest (mask / 2) s

/-- `mask` survives the pruned scan (`ok` stays `True`). -/
def okMask (target : Dec) (arr : List Dec) (mask : Nat) : Bool :=
  (scanMask target arr mask decZero).isSome

/-- The `if ok and s > best_sum` update of the best result for one mask. -/
def stepBest (target : Dec) (arr : List Dec) (best : Dec × List Dec)
    (mask : Nat) : Dec × List Dec :=
  match scanMask target arr mask decZero with
  | none => best
  | some p => if decLtB best.1 p.1 then p else best

/-- The best result after the masks `0, …, k-1` have been examined. -/
def bestUpto (target : Dec) (arr : List Dec) (k : Nat) : Dec × List Dec :=
  (List.range k).foldl (stepBest target arr) (decZero, [])

/-- The enumerator: fold the update over all `2^n` masks in increasing
order, starting from the empty subset with sum `0`. -/
def bestResult (target : Dec) (arr : List Dec) : Dec × List Dec :=
  bestUpto target arr (2 ^ arr.length)

/-- The sum `Decimal(0) + a₁ + … + aₖ` of a subset, in selection order. -/
def subsetDecSum (sub : List Dec) : Dec := sub.foldl decAdd decZero

/-- The unpruned update described by the design document: sum every selected
element of the mask first, then test admissibility of the final sum. -/
def stepBestUnpruned (target : Dec) (arr : List Dec) (best : Dec × List Dec)
    (mask : Nat) : Dec × List Dec :=
  let sub := maskSubset arr mask
  let s := subsetDecSum sub
  if decLeB s target then
    if decLtB best.1 s then (s, sub) else best
  else best

/-- The unpruned reference enumeration. -/
def bestResultUnpruned (target : Dec) (arr : List Dec) : Dec × List Dec :=
  (List.range (2 ^ arr.length)).foldl (stepBestUnpruned target arr) (decZero, [])

/-- `[d(c) for c in row]`: convert the fields left to right, propagating the
first `ValueError` (which carries the token `d` failed on). -/
def mapD : List String → Except String (List Dec)
  | [] => .ok []
  | cfield :: cs =>
    match d cfield with
    | none => .error (dtok cfield)
    | some v =>
      match mapD cs with
      | .error t => .error t
      | .ok vs => .ok (v :: vs)

/-- `not row or all(not c.strip() for c in row)`: the blank-row skip test. -/
def rowBlank (row : List String) : Bool :=
  row.isEmpty || row.all (fun cfield => (stripChars cfield.data).isEmpty)

/-- The short-row diagnostic written to stderr. -/
def shortMsg (idx : Nat) : String :=
  "Row " ++ String.mk (natDigits idx) ++ ": ERROR need at least 1 big and 1 small number"

/-- The `chosen=[…]` rendering of the winning subset. -/
def chosenStr (sub : List Dec) : String :=
  "[" ++ String.intercalate ", " (sub.map numstr) ++ "]"

/-- The stdout line of a successfully processed row. -/
def outputLine (idx : Nat) (target : Dec) (arr : List Dec) : String :=
  let r := bestResult target arr
  "Row " ++ String.mk (natDigits idx) ++ ": chosen=" ++ chosenStr r.2 ++
    " sum=" ++ numstr r.1 ++ " / target=" ++ numstr target

/-- What processing one row does. -/
inductive RowOutcome where
  | skip : RowOutcome
  | shortErr : String → RowOutcome
  | output : String → RowOutcome
  | abort : String → RowOutcome
deriving DecidableEq

/-- One iteration of the row loop: skip blank rows, convert every field
(an unparsable field raises, i.e. aborts), reject rows with fewer than two
numbers, otherwise solve and print. -/
def stepRow (idx : Nat) (row : List String) : RowOutcome :=
  if rowBlank row then .skip
  else
    match mapD row with
    | .error tok => .abort tok
    | .ok nums =>
      match nums with
      | t :: a :: rest => .output (outputLine idx t (a :: rest))
      | _ => .shortErr (shortMsg idx)

/-- The row loop from row index `idx` on: returns the stdout lines, the
stderr lines, and `some tok` when an uncaught `ValueError` aborted the run. -/
def runFrom : Nat → List (List String) → List String × List String × Option String
  | _, [] => ([], [], none)
  | idx, row :: rest =>
    match stepRow idx row with
    | .skip => runFrom (idx + 1) rest
    | .shortErr m =>
      let r := runFrom (idx + 1) rest
      (r.1, m :: r.2.1, r.2.2)
    | .output l =>
      let r := runFrom (idx + 1) rest
      (l :: r.1, r.2.1, r.2.2)
    | .abort tok => ([], [], some tok)

/-- `main`: process the whole file, rows 1-indexed. -/
def main (rows : List (List String)) : List String × List String × Option String :=
  runFrom 1 rows

end SubsetSumSolver

namespace SubsetSumSolver

/-! ### Value-level characterisation of the `Decimal` primitives -/

lemma ten_ne_zero : (10 : ℚ) ≠ 0 := by norm_num

lemma ten_zpow_pos (e : ℤ) : (0 : ℚ) < (10 : ℚ) ^ e := zpow_pos (by norm_num) e

lemma valQ_mk (c e : Int) : valQ ⟨c, e⟩ = (c : ℚ) * (10 : ℚ) ^ e := rfl

lemma valQ_decZero : valQ decZero = 0 := by simp [valQ, decZero]

lemma shift_eq (c e₁ e₂ : ℤ) (h : e₂ ≤ e₁) :
    ((c * 10 ^ (e₁ - e₂).toNat : ℤ) : ℚ) * (10 : ℚ) ^ e₂ = (c : ℚ) * (10 : ℚ) ^ e₁ := by
  have h1 : ((e₁ - e₂).toNat : ℤ) = e₁ - e₂ := Int.toNat_of_nonneg (by omega)
  push_cast
  rw [← zpow_natCast (10 : ℚ) (e₁ - e₂).toNat, h1, mul_assoc,
    ← zpow_add₀ ten_ne_zero]
  congr 2
  omega

lemma valQ_lt_iff_le (a b : Dec) (h : a.e ≤ b.e) :
    valQ a < valQ b ↔ a.c < b.c * 10 ^ (b.e - a.e).toNat := by
  rw [show valQ b = ((b.c * 10 ^ (b.e - a.e).toNat : ℤ) : ℚ) * (10 : ℚ) ^ a.e from
    (shift_eq b.c b.e a.e h).symm]
  simp only [valQ]
  rw [mul_lt_mul_right (ten_zpow_pos a.e)]
  exact Int.cast_lt

lemma valQ_lt_iff_ge (a b : Dec) (h : b.e ≤ a.e) :
    valQ a < valQ b ↔ a.c * 10 ^ (a.e - b.e).toNat < b.c := by
  rw [show valQ a = ((a.c * 10 ^ (a.e - b.e).toNat : ℤ) : ℚ) * (10 : ℚ) ^ b.e from
    (shift_eq a.c a.e b.e h).symm]
  simp only [valQ]
  rw [mul_lt_mul_right (ten_zpow_pos b.e)]
  exact Int.cast_lt

lemma decLtB_iff (a b : Dec) : decLtB a b = true ↔ valQ a < valQ b := by
  unfold decLtB
  split
  · rw [decide_eq_true_iff, valQ_lt_iff_le a b (by assumption)]
  · rw [decide_eq_true_iff, valQ_lt_iff_ge a b (by omega)]

lemma valQ_le_iff_le (a b : Dec) (h : a.e ≤ b.e) :
    valQ a ≤ valQ b ↔ a.c ≤ b.c * 10 ^ (b.e - a.e).toNat := by
  rw [show valQ b = ((b.c * 10 ^ (b.e - a.e).toNat : ℤ) : ℚ) * (10 : ℚ) ^ a.e from
    (shift_eq b.c b.e a.e h).symm]
  simp only [valQ]
  rw [mul_le_mul_right (ten_zpow_pos a.e)]
  exact Int.cast_le

lemma valQ_le_iff_ge (a b : Dec) (h : b.e ≤ a.e) :
    valQ a ≤ valQ b ↔ a.c * 10 ^ (a.e - b.e).toNat ≤ b.c := by
  rw [show valQ a = ((a.c * 10 ^ (a.e - b.e).toNat : ℤ) : ℚ) * (10 : ℚ) ^ b.e from
    (shift_eq a.c a.e b.e h).symm]
  simp only [valQ]
  rw [mul_le_mul_right (ten_zpow_pos b.e)]
  exact Int.cast_le

lemma decLeB_iff (a b : Dec) : decLeB a b = true ↔ valQ a ≤ valQ b := by
  unfold decLeB
  split
  · rw [decide_eq_true_iff, valQ_le_iff_le a b (by assumption)]
  · rw [decide_eq_true_iff, valQ_le_iff_ge a b (by omega)]

lemma decLtB_false_iff (a b : Dec) : decLtB a b = false ↔ ¬ (valQ a < valQ b) := by
  rw [← decLtB_iff]
  cases decLtB a b <;> simp

lemma decLeB_false_iff (a b : Dec) : decLeB a b = false ↔ ¬ (valQ a ≤ valQ b) := by
  rw [← decLeB_iff]
  cases decLeB a b <;> simp

lemma valQ_decAddRaw (a b : Dec) : valQ (decAddRaw a b) = valQ a + valQ b := by
  unfold decAddRaw
  split
  · rename_i h
    have hs := shift_eq b.c b.e a.e h
    simp only [valQ] at hs ⊢
    push_cast at hs ⊢
    rw [add_mul, hs]
  · rename_i h
    have hs := shift_eq a.c a.e b.e (by omega)
    simp only [valQ] at hs ⊢
    push_cast at hs ⊢
    rw [add_mul, hs]

lemma valQ_int (c : Int) : valQ ⟨c, 0⟩ = (c : ℚ) := by
  simp [valQ]

lemma valQ_nonneg_iff (x : Dec) : 0 ≤ valQ x ↔ 0 ≤ x.c := by
  unfold valQ
  rw [mul_nonneg_iff_of_pos_right (ten_zpow_pos x.e)]
  exact Int.cast_nonneg

end SubsetSumSolver

namespace SubsetSumSolver

/-! ### The pruned scan of one mask -/

lemma maskSubset_zero (arr : List Dec) : maskSubset arr 0 = [] := by
  induction arr with
  | nil => rfl
  | cons a rest ih => simpa [maskSubset] using ih

lemma maskSubset_sublist (arr : List Dec) : ∀ m, (maskSubset arr m).Sublist arr := by
  induction arr with
  | nil => intro m; simp [maskSubset]
  | cons a rest ih =>
    intro m
    by_cases h : m % 2 = 1
    · simpa [maskSubset, h] using (ih (m / 2)).cons₂ a
    · simpa [maskSubset, h] using (ih (m / 2)).cons a

lemma scanMask_zero (t : Dec) (arr : List Dec) : ∀ s, scanMask t arr 0 s = some (s, []) := by
  induction arr with
  | nil => intro s; rfl
  | cons a rest ih => intro s; simpa [scanMask] using ih s

lemma scanMask_some (t : Dec) (arr : List Dec) :
    ∀ m s₀ p, scanMask t arr m s₀ = some p →
      p = ((maskSubset arr m).foldl decAdd s₀, maskSubset arr m) := by
  induction arr with
  | nil =>
    intro m s₀ p hp
    simp only [scanMask, Option.some.injEq] at hp
    simp [maskSubset, ← hp]
  | cons a rest ih =>
    intro m s₀ p hp
    by_cases hbit : m % 2 = 1
    · simp only [scanMask] at hp
      rw [if_pos hbit] at hp
      split at hp
      · exact absurd hp (by simp)
      · split at hp
        · exact absurd hp (by simp)
        · rename_i q hq
          have hp2 : p = (q.1, a :: q.2) := by simpa using hp.symm
          have hqe := ih (m / 2) (decAdd s₀ a) q hq
          rw [show maskSubset (a :: rest) m = a :: maskSubset rest (m / 2) from by
            rw [maskSubset, if_pos hbit]]
          rw [hp2, hqe]
          simp [List.foldl_cons]
    · simp only [scanMask] at hp
      rw [if_neg hbit] at hp
      have := ih (m / 2) s₀ p hp
      rw [show maskSubset (a :: rest) m = maskSubset rest (m / 2) from by
        rw [maskSubset, if_neg hbit]]
      exact this

end SubsetSumSolver

namespace SubsetSumSolver

/-! ### Context rounding: bounds on the rounded coefficient -/

lemma natDigitsAux_len_pos (fuel n : Nat) (h : n < fuel) :
    1 ≤ (natDigitsAux fuel n).length := by
  cases fuel with
  | zero => omega
  | succ fuel =>
    rw [natDigitsAux]
    split
    · simp
    · simp

lemma natDigitsAux_lt_pow (fuel : Nat) :
    ∀ n, n < fuel → n < 10 ^ (natDigitsAux fuel n).length := by
  induction fuel with
  | zero => intro n h; omega
  | succ fuel ih =>
    intro n h
    by_cases h10 : n < 10
    · simp only [natDigitsAux, if_pos h10, List.length_singleton, pow_one]
      exact h10
    · have hd : n / 10 < fuel := by omega
      have ihd : n / 10 + 1 ≤ 10 ^ (natDigitsAux fuel (n / 10)).length := ih (n / 10) hd
      simp only [natDigitsAux, if_neg h10, List.length_append, List.length_singleton]
      calc n < 10 * (n / 10 + 1) := by omega
        _ ≤ 10 * 10 ^ (natDigitsAux fuel (n / 10)).length := Nat.mul_le_mul_left 10 ihd
        _ = 10 ^ ((natDigitsAux fuel (n / 10)).length + 1) := by rw [pow_succ]; ring

lemma pow_le_natDigitsAux (fuel : Nat) :
    ∀ n, n < fuel → 1 ≤ n → 10 ^ ((natDigitsAux fuel n).length - 1) ≤ n := by
  induction fuel with
  | zero => intro n h _; omega
  | succ fuel ih =>
    intro n h h1
    by_cases h10 : n < 10
    · simp only [natDigitsAux, if_pos h10, List.length_singleton]
      simpa using h1
    · have hd : n / 10 < fuel := by omega
      have hd1 : 1 ≤ n / 10 := by omega
      have ihd := ih (n / 10) hd hd1
      have hpos := natDigitsAux_len_pos fuel (n / 10) hd
      simp only [natDigitsAux, if_neg h10, List.length_append, List.length_singleton]
      rw [show (natDigitsAux fuel (n / 10)).length + 1 - 1 =
        ((natDigitsAux fuel (n / 10)).length - 1) + 1 from by omega, pow_succ]
      calc 10 ^ ((natDigitsAux fuel (n / 10)).length - 1) * 10 ≤ (n / 10) * 10 :=
            Nat.mul_le_mul_right 10 ihd
        _ ≤ n := by omega

lemma numDigits_lt (n : Nat) : n < 10 ^ numDigits n :=
  natDigitsAux_lt_pow (n + 1) n (by omega)

lemma le_of_numDigits (n : Nat) (h : 1 ≤ n) : 10 ^ (numDigits n - 1) ≤ n :=
  pow_le_natDigitsAux (n + 1) n (by omega) h

lemma roundHalfEven_bounds (c k : Nat) :
    c / 10 ^ k ≤ roundHalfEven c k ∧ roundHalfEven c k ≤ c / 10 ^ k + 1 := by
  unfold roundHalfEven
  split <;> omega

lemma roundPrec_eq_self (x : Dec) (h : numDigits x.c.natAbs ≤ 50) : roundPrec x = x := by
  unfold roundPrec
  rw [if_pos h]

lemma roundPrec_pos_eq (x : Dec) (hx : 0 ≤ x.c) (hnd : ¬ numDigits x.c.natAbs ≤ 50) :
    roundPrec x = ⟨(roundHalfEven x.c.natAbs (numDigits x.c.natAbs - 50) : Int),
                   x.e + ((numDigits x.c.natAbs - 50 : Nat) : Int)⟩ := by
  unfold roundPrec
  rw [if_neg hnd, if_neg (by omega : ¬ x.c < 0)]

lemma roundPrec_pos_c (x : Dec) (hx : 0 ≤ x.c) (hnd : ¬ numDigits x.c.natAbs ≤ 50) :
    (roundPrec x).c = (roundHalfEven x.c.natAbs (numDigits x.c.natAbs - 50) : Int) := by
  rw [roundPrec_pos_eq x hx hnd]

lemma roundPrec_pos_e (x : Dec) (hx : 0 ≤ x.c) (hnd : ¬ numDigits x.c.natAbs ≤ 50) :
    (roundPrec x).e = x.e + ((numDigits x.c.natAbs - 50 : Nat) : Int) := by
  rw [roundPrec_pos_eq x hx hnd]

lemma roundHalfEven_le_prec (x : Dec) (hnd : ¬ numDigits x.c.natAbs ≤ 50) :
    roundHalfEven x.c.natAbs (numDigits x.c.natAbs - 50) ≤ 10 ^ 50 := by
  have h1 : x.c.natAbs < 10 ^ numDigits x.c.natAbs := numDigits_lt _
  have h3 : x.c.natAbs < 10 ^ (numDigits x.c.natAbs - 50) * 10 ^ 50 := by
    rw [← pow_add, show numDigits x.c.natAbs - 50 + 50 = numDigits x.c.natAbs from by omega]
    exact h1
  have h4 : x.c.natAbs / 10 ^ (numDigits x.c.natAbs - 50) < 10 ^ 50 :=
    Nat.div_lt_of_lt_mul h3
  have h5 := (roundHalfEven_bounds x.c.natAbs (numDigits x.c.natAbs - 50)).2
  omega

lemma le_roundHalfEven_prec (x : Dec) (hnd : ¬ numDigits x.c.natAbs ≤ 50) :
    10 ^ 49 ≤ roundHalfEven x.c.natAbs (numDigits x.c.natAbs - 50) := by
  have hc1 : 1 ≤ x.c.natAbs := by
    by_contra hc
    have h0 : x.c.natAbs = 0 := by omega
    rw [h0] at hnd
    exact hnd (by decide)
  have h1 : 10 ^ (numDigits x.c.natAbs - 1) ≤ x.c.natAbs := le_of_numDigits _ hc1
  have h3 : 10 ^ 49 * 10 ^ (numDigits x.c.natAbs - 50) ≤ x.c.natAbs := by
    rw [← pow_add,
      show 49 + (numDigits x.c.natAbs - 50) = numDigits x.c.natAbs - 1 from by omega]
    exact h1
  have h4 : 10 ^ 49 ≤ x.c.natAbs / 10 ^ (numDigits x.c.natAbs - 50) :=
    (Nat.le_div_iff_mul_le (by positivity)).2 h3
  have h5 := (roundHalfEven_bounds x.c.natAbs (numDigits x.c.natAbs - 50)).1
  omega

lemma decAddRaw_e_le_left (a b : Dec) : (decAddRaw a b).e ≤ a.e := by
  unfold decAddRaw
  split
  · exact le_refl a.e
  · rename_i h
    show b.e ≤ a.e
    omega

lemma decAddRaw_c_nonneg (a b : Dec) (ha : 0 ≤ a.c) (hb : 0 ≤ b.c) :
    0 ≤ (decAddRaw a b).c := by
  unfold decAddRaw
  split
  · show 0 ≤ a.c + b.c * 10 ^ (b.e - a.e).toNat
    exact add_nonneg ha (mul_nonneg hb (by positivity))
  · show 0 ≤ a.c * 10 ^ (a.e - b.e).toNat + b.c
    exact add_nonneg (mul_nonneg ha (by positivity)) hb

lemma decAdd_c_nonneg (a b : Dec) (ha : 0 ≤ a.c) (hb : 0 ≤ b.c) :
    0 ≤ (decAdd a b).c := by
  unfold decAdd
  by_cases h : numDigits (decAddRaw a b).c.natAbs ≤ 50
  · rw [roundPrec_eq_self _ h]
    exact decAddRaw_c_nonneg a b ha hb
  · rw [roundPrec_pos_c _ (decAddRaw_c_nonneg a b ha hb) h]
    exact Int.natCast_nonneg _

lemma decAdd_c_le (a b : Dec) (ha : 0 ≤ a.c) (hb : 0 ≤ b.c) :
    (decAdd a b).c.natAbs ≤ 10 ^ 50 := by
  unfold decAdd
  by_cases h : numDigits (decAddRaw a b).c.natAbs ≤ 50
  · rw [roundPrec_eq_self _ h]
    have h1 := numDigits_lt (decAddRaw a b).c.natAbs
    have h2 : (10 : Nat) ^ numDigits (decAddRaw a b).c.natAbs ≤ 10 ^ 50 :=
      Nat.pow_le_pow_right (by norm_num) h
    omega
  · rw [roundPrec_pos_c _ (decAddRaw_c_nonneg a b ha hb) h, Int.natAbs_ofNat]
    exact roundHalfEven_le_prec _ h

/-- Rounded addition of a nonnegative term never decreases a running sum whose
coefficient fits the 50-digit context (the invariant the fold maintains). -/
lemma le_valQ_decAdd_left (s a : Dec) (hs0 : 0 ≤ s.c) (hs50 : s.c.natAbs ≤ 10 ^ 50)
    (ha : 0 ≤ a.c) : valQ s ≤ valQ (decAdd s a) := by
  have hraw : valQ s ≤ valQ (decAddRaw s a) := by
    rw [valQ_decAddRaw]
    have h0 : 0 ≤ valQ a := (valQ_nonneg_iff a).2 ha
    linarith
  unfold decAdd
  by_cases hnd : numDigits (decAddRaw s a).c.natAbs ≤ 50
  · rw [roundPrec_eq_self _ hnd]
    exact hraw
  · set X := decAddRaw s a with hXdef
    have hX0 : 0 ≤ X.c := decAddRaw_c_nonneg s a hs0 ha
    have hq49 := le_roundHalfEven_prec X hnd
    have hqlo := (roundHalfEven_bounds X.c.natAbs (numDigits X.c.natAbs - 50)).1
    have hXe : X.e ≤ s.e := decAddRaw_e_le_left s a
    have hre := roundPrec_pos_e X hX0 hnd
    have hrc := roundPrec_pos_c X hX0 hnd
    by_cases hse : (roundPrec X).e ≤ s.e
    · rw [valQ_le_iff_ge s (roundPrec X) hse, hrc]
      have hIneq : s.c * 10 ^ ((s.e - X.e).toNat) ≤ X.c :=
        (valQ_le_iff_ge s X hXe).1 hraw
      have hjk : (s.e - X.e).toNat =
          (s.e - (roundPrec X).e).toNat + (numDigits X.c.natAbs - 50) := by
        omega
      rw [hjk] at hIneq
      have e1 : ((s.c.toNat : ℤ)) = s.c := Int.toNat_of_nonneg hs0
      have e2 : ((X.c.natAbs : ℤ)) = X.c := Int.natAbs_of_nonneg hX0
      have hsN : s.c.toNat * 10 ^ ((s.e - (roundPrec X).e).toNat +
          (numDigits X.c.natAbs - 50)) ≤ X.c.natAbs := by
        have hcast : ((s.c.toNat * 10 ^ ((s.e - (roundPrec X).e).toNat +
            (numDigits X.c.natAbs - 50)) : ℕ) : ℤ) ≤ (X.c.natAbs : ℤ) := by
          rw [Nat.cast_mul, Nat.cast_pow, e1, e2]
          exact_mod_cast hIneq
        exact_mod_cast hcast
      have hdivN : s.c.toNat * 10 ^ ((s.e - (roundPrec X).e).toNat) ≤
          X.c.natAbs / 10 ^ (numDigits X.c.natAbs - 50) := by
        rw [Nat.le_div_iff_mul_le (by positivity)]
        calc s.c.toNat * 10 ^ ((s.e - (roundPrec X).e).toNat) *
              10 ^ (numDigits X.c.natAbs - 50)
            = s.c.toNat * 10 ^ ((s.e - (roundPrec X).e).toNat +
              (numDigits X.c.natAbs - 50)) := by rw [mul_assoc, ← pow_add]
          _ ≤ X.c.natAbs := hsN
      have hq : s.c.toNat * 10 ^ ((s.e - (roundPrec X).e).toNat) ≤
          roundHalfEven X.c.natAbs (numDigits X.c.natAbs - 50) := le_trans hdivN hqlo
      calc s.c * 10 ^ ((s.e - (roundPrec X).e).toNat)
          = ((s.c.toNat * 10 ^ ((s.e - (roundPrec X).e).toNat) : ℕ) : ℤ) := by
            push_cast [e1]
            ring
        _ ≤ (roundHalfEven X.c.natAbs (numDigits X.c.natAbs - 50) : ℤ) := by
            exact_mod_cast hq
    · have hse2 : s.e ≤ (roundPrec X).e := by omega
      rw [valQ_le_iff_le s (roundPrec X) hse2, hrc]
      have ht1 : 1 ≤ ((roundPrec X).e - s.e).toNat := by omega
      have hN : (10 : ℕ) ^ 50 ≤ roundHalfEven X.c.natAbs (numDigits X.c.natAbs - 50) *
          10 ^ (((roundPrec X).e - s.e).toNat) := by
        calc (10 : ℕ) ^ 50 = 10 ^ 49 * 10 ^ 1 := by norm_num
          _ ≤ roundHalfEven X.c.natAbs (numDigits X.c.natAbs - 50) *
              10 ^ (((roundPrec X).e - s.e).toNat) :=
            Nat.mul_le_mul hq49 (Nat.pow_le_pow_right (by norm_num) ht1)
      have h2 : ((s.c.natAbs : ℕ) : ℤ) ≤ ((10 ^ 50 : ℕ) : ℤ) := by exact_mod_cast hs50
      calc s.c ≤ ((10 ^ 50 : ℕ) : ℤ) := le_trans Int.le_natAbs h2
        _ ≤ (roundHalfEven X.c.natAbs (numDigits X.c.natAbs - 50) : ℤ) *
            10 ^ (((roundPrec X).e - s.e).toNat) := by exact_mod_cast hN

lemma decZero_c_nonneg : 0 ≤ decZero.c := le_refl 0

lemma decZero_c_le : decZero.c.natAbs ≤ 10 ^ 50 := Nat.zero_le _

/-- Over a nonnegative pool the running sum only grows, and its coefficient
stays nonnegative within the 50-digit context bound. -/
lemma le_valQ_foldl (l : List Dec) :
    (∀ x ∈ l, 0 ≤ x.c) →
    ∀ s : Dec, 0 ≤ s.c → s.c.natAbs ≤ 10 ^ 50 →
      valQ s ≤ valQ (l.foldl decAdd s) ∧
      0 ≤ (l.foldl decAdd s).c ∧ (l.foldl decAdd s).c.natAbs ≤ 10 ^ 50 := by
  induction l with
  | nil =>
    intro _ s h1 h2
    exact ⟨le_refl _, h1, h2⟩
  | cons a l ih =>
    intro hl s h1 h2
    have ha : 0 ≤ a.c := hl a (by simp)
    have hstep := le_valQ_decAdd_left s a h1 h2 ha
    have h1' := decAdd_c_nonneg s a h1 ha
    have h2' := decAdd_c_le s a h1 ha
    obtain ⟨hle, hn, hb⟩ := ih (fun x hx => hl x (by simp [hx])) (decAdd s a) h1' h2'
    simp only [List.foldl_cons]
    exact ⟨le_trans hstep hle, hn, hb⟩

lemma scanMask_le (t : Dec) (arr : List Dec) :
    ∀ m s₀ p, scanMask t arr m s₀ = some p →
      (p.2 = [] ∧ p.1 = s₀) ∨ valQ p.1 ≤ valQ t := by
  induction arr with
  | nil =>
    intro m s₀ p hp
    simp only [scanMask, Option.some.injEq] at hp
    left
    rw [← hp]
    exact ⟨rfl, rfl⟩
  | cons a rest ih =>
    intro m s₀ p hp
    by_cases hbit : m % 2 = 1
    · simp only [scanMask] at hp
      rw [if_pos hbit] at hp
      split at hp
      · exact absurd hp (by simp)
      · rename_i hnlt
        split at hp
        · exact absurd hp (by simp)
        · rename_i q hq
          have hp2 : p = (q.1, a :: q.2) := by simpa using hp.symm
          have hle : valQ (decAdd s₀ a) ≤ valQ t := by
            have := (decLtB_false_iff t (decAdd s₀ a)).1 (by
              cases hdec : decLtB t (decAdd s₀ a)
              · rfl
              · exact absurd hdec hnlt)
            exact not_lt.1 this
          rcases ih (m / 2) (decAdd s₀ a) q hq with ⟨_, hq1⟩ | hq1
          · right
            rw [hp2]
            simpa [hq1] using hle
          · right
            rw [hp2]
            exact hq1
    · simp only [scanMask] at hp
      rw [if_neg hbit] at hp
      exact ih (m / 2) s₀ p hp

/-- Under a nonnegative pool the pruned scan succeeds exactly when the
program-computed (context-rounded) running sum over the mask's subset is
admissible (or the subset is empty), and then returns that sum and subset. -/
lemma scanMask_char (t : Dec) : ∀ (arr : List Dec), (∀ x ∈ arr, 0 ≤ x.c) →
    ∀ m (s₀ : Dec), 0 ≤ s₀.c → s₀.c.natAbs ≤ 10 ^ 50 →
    scanMask t arr m s₀ =
      if maskSubset arr m ≠ [] ∧ valQ t < valQ ((maskSubset arr m).foldl decAdd s₀)
      then none
      else some ((maskSubset arr m).foldl decAdd s₀, maskSubset arr m) := by
  intro arr
  induction arr with
  | nil =>
    intro _ m s₀ _ _
    simp [scanMask, maskSubset]
  | cons a rest ih =>
    intro h m s₀ hs0 hs50
    have ha : 0 ≤ a.c := h a (by simp)
    have hrest : ∀ x ∈ rest, 0 ≤ x.c := fun x hx => h x (by simp [hx])
    have hsubel : ∀ x ∈ maskSubset rest (m / 2), 0 ≤ x.c :=
      fun x hx => hrest x ((maskSubset_sublist rest (m / 2)).subset hx)
    by_cases hbit : m % 2 = 1
    · have hms : maskSubset (a :: rest) m = a :: maskSubset rest (m / 2) := by
        rw [maskSubset, if_pos hbit]
      have hs0' : 0 ≤ (decAdd s₀ a).c := decAdd_c_nonneg s₀ a hs0 ha
      have hs50' : (decAdd s₀ a).c.natAbs ≤ 10 ^ 50 := decAdd_c_le s₀ a hs0 ha
      simp only [scanMask]
      rw [if_pos hbit, hms]
      by_cases habandon : decLtB t (decAdd s₀ a) = true
      · rw [if_pos habandon]
        have hlt : valQ t < valQ (decAdd s₀ a) := (decLtB_iff _ _).1 habandon
        have hmono := (le_valQ_foldl (maskSubset rest (m / 2)) hsubel
          (decAdd s₀ a) hs0' hs50').1
        rw [if_pos]
        refine ⟨by simp, ?_⟩
        simp only [List.foldl_cons]
        linarith
      · have hnlt : ¬ valQ t < valQ (decAdd s₀ a) :=
          (decLtB_false_iff t (decAdd s₀ a)).1 (by
            cases hdec : decLtB t (decAdd s₀ a)
            · rfl
            · exact absurd hdec habandon)
        rw [if_neg habandon, ih hrest (m / 2) (decAdd s₀ a) hs0' hs50']
        by_cases hsub : maskSubset rest (m / 2) = []
        · rw [if_neg (by rw [hsub]; simp)]
          rw [if_neg (by
            rw [hsub]
            simp only [List.foldl_cons, List.foldl_nil]
            intro hcontra
            exact hnlt hcontra.2)]
          rw [hsub]
          simp
        · by_cases hgt : valQ t < valQ ((a :: maskSubset rest (m / 2)).foldl decAdd s₀)
          · rw [if_pos ⟨hsub, by
              simp only [List.foldl_cons] at hgt
              exact hgt⟩]
            rw [if_pos ⟨by simp, hgt⟩]
          · rw [if_neg (by
              intro hcontra
              refine hgt ?_
              simp only [List.foldl_cons]
              exact hcontra.2)]
            rw [if_neg (by
              intro hcontra
              exact hgt hcontra.2)]
            simp
    · have hms : maskSubset (a :: rest) m = maskSubset rest (m / 2) := by
        rw [maskSubset, if_neg hbit]
      simp only [scanMask]
      rw [if_neg hbit, hms]
      exact ih hrest (m / 2) s₀ hs0 hs50

end SubsetSumSolver

namespace SubsetSumSolver

/-! ### Invariants of the best-result fold -/

lemma foldl_inv {α β : Type} (P : α → Prop) (f : α → β → α) (l : List β) (init : α)
    (h0 : P init) (hstep : ∀ a b, P a → P (f a b)) : P (l.foldl f init) := by
  induction l generalizing init with
  | nil => exact h0
  | cons b l ih => exact ih (f init b) (hstep init b h0)

lemma foldl_congr_inv {α β : Type} (P : α → Prop) (f g : α → β → α) (l : List β) (init : α)
    (h0 : P init) (hstep : ∀ a b, P a → f a b = g a b ∧ P (f a b)) :
    l.foldl f init = l.foldl g init := by
  induction l generalizing init with
  | nil => rfl
  | cons b l ih =>
    obtain ⟨heq, hp⟩ := hstep init b h0
    simp only [List.foldl_cons]
    rw [← heq, ih (f init b) hp]

lemma stepBest_none (t : Dec) (arr : List Dec) (best : Dec × List Dec) (m : Nat)
    (h : scanMask t arr m decZero = none) : stepBest t arr best m = best := by
  unfold stepBest
  rw [h]

lemma stepBest_some (t : Dec) (arr : List Dec) (best : Dec × List Dec) (m : Nat)
    (p : Dec × List Dec) (h : scanMask t arr m decZero = some p) :
    stepBest t arr best m = if decLtB best.1 p.1 = true then p else best := by
  unfold stepBest
  rw [h]

lemma stepBest_zero (t : Dec) (arr : List Dec) (best : Dec × List Dec)
    (h : 0 ≤ valQ best.1) : stepBest t arr best 0 = best := by
  unfold stepBest
  rw [scanMask_zero]
  have : decLtB best.1 decZero = false := by
    rw [decLtB_false_iff, valQ_decZero]
    exact not_lt.2 h
  simp [this]

lemma stepBest_nonneg (t : Dec) (arr : List Dec) (best : Dec × List Dec) (m : Nat)
    (h : 0 ≤ valQ best.1) : 0 ≤ valQ (stepBest t arr best m).1 := by
  unfold stepBest
  split
  · exact h
  · split
    · rename_i p _ hlt
      have := (decLtB_iff best.1 p.1).1 hlt
      linarith
    · exact h

lemma bestUpto_nonneg (t : Dec) (arr : List Dec) (k : Nat) :
    0 ≤ valQ (bestUpto t arr k).1 := by
  unfold bestUpto
  exact foldl_inv (fun st : Dec × List Dec => 0 ≤ valQ st.1) (stepBest t arr)
    (List.range k) (decZero, []) (by simp [valQ_decZero])
    (fun a b ha => stepBest_nonneg t arr a b ha)

/-- After masks `0, …, k-1` the state is exactly the first-found admissible
mask of maximal computed sum: its mask index `m0` is minimal among masks
achieving the state's sum, the kept subset is `maskSubset arr m0`, the kept
sum is the program's running sum over that subset, and no examined admissible
mask's computed sum beats the state's sum. -/
lemma bestUpto_spec (t : Dec) (arr : List Dec) :
    ∀ k, 1 ≤ k →
    ∃ m0, m0 < k ∧ okMask t arr m0 = true ∧
      (bestUpto t arr k).1 = subsetDecSum (maskSubset arr m0) ∧
      (bestUpto t arr k).2 = maskSubset arr m0 ∧
      (∀ m, m < k → okMask t arr m = true →
        valQ (subsetDecSum (maskSubset arr m)) ≤ valQ (bestUpto t arr k).1) ∧
      (∀ m, m < m0 → ¬(okMask t arr m = true ∧
        valQ (subsetDecSum (maskSubset arr m)) = valQ (bestUpto t arr k).1)) := by
  intro k
  induction k with
  | zero => omega
  | succ k ih =>
    intro _
    by_cases hk : k = 0
    · subst hk
      have h1 : bestUpto t arr 1 = (decZero, []) := by
        unfold bestUpto
        rw [show List.range 1 = [0] from rfl, List.foldl_cons, List.foldl_nil]
        exact stepBest_zero t arr (decZero, []) (by simp [valQ_decZero])
      refine ⟨0, by omega, ?_, ?_, ?_, ?_, ?_⟩
      · unfold okMask
        rw [scanMask_zero]
        rfl
      · rw [h1, maskSubset_zero]
        rfl
      · rw [h1, maskSubset_zero]
      · intro m hm _
        interval_cases m
        rw [h1, maskSubset_zero]
        exact le_refl _
      · intro m hm
        omega
    · have hk1 : 1 ≤ k := by omega
      obtain ⟨m0, hm0k, hok, hsumeq, hsubeq, hub, hmin⟩ := ih hk1
      have hstep : bestUpto t arr (k + 1) = stepBest t arr (bestUpto t arr k) k := by
        unfold bestUpto
        rw [List.range_succ, List.foldl_append, List.foldl_cons, List.foldl_nil]
      cases hscan : scanMask t arr k decZero with
      | none =>
        have hstep2 : bestUpto t arr (k + 1) = bestUpto t arr k := by
          rw [hstep]
          exact stepBest_none t arr _ k hscan
        have hokk : okMask t arr k = false := by
          unfold okMask
          rw [hscan]
          rfl
        refine ⟨m0, by omega, hok, by rw [hstep2]; exact hsumeq, by rw [hstep2]; exact hsubeq,
          ?_, ?_⟩
        · intro m hm hmok
          rw [hstep2]
          rcases Nat.lt_succ_iff_lt_or_eq.1 hm with hm' | rfl
          · exact hub m hm' hmok
          · rw [hokk] at hmok
            exact absurd hmok (by simp)
        · intro m hm
          rw [hstep2]
          exact hmin m hm
      | some p =>
        have hp := scanMask_some t arr k decZero p hscan
        have hp1 : p.1 = subsetDecSum (maskSubset arr k) := by
          rw [hp]
          rfl
        have hpv : valQ p.1 = valQ (subsetDecSum (maskSubset arr k)) := by
          rw [hp1]
        have hokk : okMask t arr k = true := by
          unfold okMask
          rw [hscan]
          rfl
        by_cases hlt : decLtB (bestUpto t arr k).1 p.1 = true
        · have hltv := (decLtB_iff _ _).1 hlt
          have hstep2 : bestUpto t arr (k + 1) = p := by
            rw [hstep, stepBest_some t arr _ k p hscan, if_pos hlt]
          refine ⟨k, by omega, hokk, by rw [hstep2, hp1],
            by rw [hstep2, hp], ?_, ?_⟩
          · intro m hm hmok
            rw [hstep2]
            rcases Nat.lt_succ_iff_lt_or_eq.1 hm with hm' | rfl
            · have := hub m hm' hmok
              linarith
            · rw [← hpv]
          · intro m hm hcon
            rw [hstep2] at hcon
            have h2 := hub m hm hcon.1
            have h3 := hcon.2
            linarith
        · have hltv : ¬ valQ (bestUpto t arr k).1 < valQ p.1 :=
            (decLtB_false_iff _ _).1 (by
              cases hdec : decLtB (bestUpto t arr k).1 p.1
              · rfl
              · exact absurd hdec hlt)
          have hstep2 : bestUpto t arr (k + 1) = bestUpto t arr k := by
            rw [hstep, stepBest_some t arr _ k p hscan, if_neg hlt]
          refine ⟨m0, by omega, hok, by rw [hstep2]; exact hsumeq,
            by rw [hstep2]; exact hsubeq, ?_, ?_⟩
          · intro m hm hmok
            rw [hstep2]
            rcases Nat.lt_succ_iff_lt_or_eq.1 hm with hm' | rfl
            · exact hub m hm' hmok
            · rw [← hpv]
              exact not_lt.1 hltv
          · intro m hm
            rw [hstep2]
            exact hmin m hm

end SubsetSumSolver

namespace SubsetSumSolver

lemma stepBestUnpruned_eq (t : Dec) (arr : List Dec) (best : Dec × List Dec) (m : Nat) :
    stepBestUnpruned t arr best m =
      if decLeB (subsetDecSum (maskSubset arr m)) t = true then
        if decLtB best.1 (subsetDecSum (maskSubset arr m)) = true then
          (subsetDecSum (maskSubset arr m), maskSubset arr m)
        else best
      else best := rfl

lemma step_eq_unpruned (t : Dec) (arr : List Dec) (h : ∀ x ∈ arr, 0 ≤ x.c)
    (best : Dec × List Dec) (m : Nat) (hb : 0 ≤ valQ best.1) :
    stepBest t arr best m = stepBestUnpruned t arr best m := by
  have hchar := scanMask_char t arr h m decZero decZero_c_nonneg decZero_c_le
  have hzero : decLtB best.1 decZero = false := by
    rw [decLtB_false_iff, valQ_decZero]
    exact not_lt.2 hb
  by_cases hsub : maskSubset arr m = []
  · rw [hsub] at hchar
    rw [if_neg (by simp)] at hchar
    rw [stepBest_some t arr best m _ hchar, stepBestUnpruned_eq, hsub]
    simp only [List.foldl_nil, show subsetDecSum ([] : List Dec) = decZero from rfl, hzero]
    simp
  · by_cases hgt : valQ t < valQ ((maskSubset arr m).foldl decAdd decZero)
    · rw [if_pos ⟨hsub, hgt⟩] at hchar
      rw [stepBest_none t arr best m hchar, stepBestUnpruned_eq]
      have hle : decLeB (subsetDecSum (maskSubset arr m)) t = false := by
        rw [decLeB_false_iff]
        exact not_le.2 (show valQ t < valQ (subsetDecSum (maskSubset arr m)) from hgt)
      rw [hle]
      simp
    · rw [if_neg (by
        intro hcontra
        exact hgt hcontra.2)] at hchar
      rw [stepBest_some t arr best m _ hchar, stepBestUnpruned_eq]
      have hle : decLeB (subsetDecSum (maskSubset arr m)) t = true := by
        rw [decLeB_iff]
        exact not_lt.1 hgt
      rw [hle]
      simp [subsetDecSum]

/-- Pruned and unpruned enumeration agree on nonnegative pools. -/
lemma bestResult_eq_unpruned (t : Dec) (arr : List Dec) (h : ∀ x ∈ arr, 0 ≤ x.c) :
    bestResult t arr = bestResultUnpruned t arr := by
  unfold bestResult bestUpto bestResultUnpruned
  exact foldl_congr_inv (fun st : Dec × List Dec => 0 ≤ valQ st.1)
    (stepBest t arr) (stepBestUnpruned t arr) (List.range (2 ^ arr.length)) (decZero, [])
    (by simp [valQ_decZero])
    (fun a b ha => ⟨step_eq_unpruned t arr h a b ha, stepBest_nonneg t arr a b ha⟩)

/-- Admissibility: with a nonnegative target the final best sum never
exceeds the target. -/
lemma bestResult_le_target (t : Dec) (arr : List Dec) (ht : 0 ≤ valQ t) :
    valQ (bestResult t arr).1 ≤ valQ t := by
  unfold bestResult bestUpto
  refine foldl_inv (fun st : Dec × List Dec => valQ st.1 ≤ valQ t) (stepBest t arr)
    (List.range (2 ^ arr.length)) (decZero, []) (by simpa [valQ_decZero] using ht) ?_
  intro st m hst
  cases hscan : scanMask t arr m decZero with
  | none => rw [stepBest_none t arr st m hscan]; exact hst
  | some p =>
    rw [stepBest_some t arr st m p hscan]
    split
    · rcases scanMask_le t arr m decZero p hscan with ⟨_, hp1⟩ | hp1
      · rw [hp1, valQ_decZero]
        exact ht
      · exact hp1
    · exact hst

lemma bestResult_nonneg (t : Dec) (arr : List Dec) : 0 ≤ valQ (bestResult t arr).1 :=
  bestUpto_nonneg t arr (2 ^ arr.length)

lemma one_le_two_pow_len (n : Nat) : 1 ≤ 2 ^ n := Nat.one_le_two_pow

end SubsetSumSolver

namespace SubsetSumSolver

/-! ### The row loop -/

lemma runFrom_append (l₁ l₂ : List (List String)) : ∀ idx,
    (runFrom idx l₁).2.2 = none →
    runFrom idx (l₁ ++ l₂) =
      ((runFrom idx l₁).1 ++ (runFrom (idx + l₁.length) l₂).1,
       (runFrom idx l₁).2.1 ++ (runFrom (idx + l₁.length) l₂).2.1,
       (runFrom (idx + l₁.length) l₂).2.2) := by
  induction l₁ with
  | nil => intro idx h; simp [runFrom]
  | cons row rest ih =>
    intro idx h
    have hlen : idx + (row :: rest).length = (idx + 1) + rest.length := by
      simp [List.length_cons]
      omega
    rw [hlen]
    simp only [List.cons_append]
    cases hstep : stepRow idx row with
    | skip =>
      simp only [runFrom, hstep] at h ⊢
      exact ih (idx + 1) h
    | shortErr msg =>
      simp only [runFrom, hstep] at h ⊢
      rw [ih (idx + 1) h]
      simp
    | output line =>
      simp only [runFrom, hstep] at h ⊢
      rw [ih (idx + 1) h]
      simp
    | abort tok =>
      rw [runFrom, hstep] at h
      simp at h

lemma mapD_error (cs₁ : List String) (cfield : String) (cs₂ : List String)
    (h1 : ∀ cf ∈ cs₁, (d cf).isSome = true) (h2 : d cfield = none) :
    mapD (cs₁ ++ cfield :: cs₂) = Except.error (dtok cfield) := by
  induction cs₁ with
  | nil => simp [mapD, h2]
  | cons cf cs₁ ih =>
    obtain ⟨v, hv⟩ := Option.isSome_iff_exists.1 (h1 cf (by simp))
    have ih2 := ih (fun x hx => h1 x (by simp [hx]))
    simp only [List.cons_append, mapD, hv]
    rw [show cs₁.append (cfield :: cs₂) = cs₁ ++ cfield :: cs₂ from rfl, ih2]

lemma stepRow_abort (idx : Nat) (row : List String) (tok : String)
    (h1 : rowBlank row = false) (h2 : mapD row = Except.error tok) :
    stepRow idx row = RowOutcome.abort tok := by
  unfold stepRow
  rw [h1, h2]
  simp

/-- An uncaught conversion failure in a non-blank row stops the whole run:
the stdout and stderr of the earlier rows survive, the failing token is
reported, and no further row is touched. -/
lemma run_aborts (pre rest : List (List String)) (cs₁ cs₂ : List String) (cfield : String)
    (h1 : (runFrom 1 pre).2.2 = none)
    (h2 : rowBlank (cs₁ ++ cfield :: cs₂) = false)
    (h3 : ∀ cf ∈ cs₁, (d cf).isSome = true)
    (h4 : d cfield = none) :
    runFrom 1 (pre ++ (cs₁ ++ cfield :: cs₂) :: rest) =
      ((runFrom 1 pre).1, (runFrom 1 pre).2.1, some (dtok cfield)) := by
  rw [runFrom_append pre ((cs₁ ++ cfield :: cs₂) :: rest) 1 h1]
  have hstep : stepRow (1 + pre.length) (cs₁ ++ cfield :: cs₂) =
      RowOutcome.abort (dtok cfield) :=
    stepRow_abort _ _ _ h2 (mapD_error cs₁ cfield cs₂ h3 h4)
  simp [runFrom, hstep]

lemma stripChars_nil_count (l : List Char) (h : stripChars l = []) :
    dtokChars l = [] := by
  unfold dtokChars
  rw [h]
  simp

lemma d_of_blank (s : String) (h : stripChars s.data = []) :
    d s = none ∧ dtok s = "" := by
  constructor
  · unfold d
    rw [stripChars_nil_count s.data h]
    rfl
  · unfold dtok
    rw [stripChars_nil_count s.data h]

end SubsetSumSolver

namespace SubsetSumSolver

/-! ### Digit strings -/

end SubsetSumSolver

namespace SubsetSumSolver

/-! ### Parsing a fixed-point rendering back -/

end SubsetSumSolver

namespace SubsetSumSolver

/-! ### Normalisation and integrality -/

end SubsetSumSolver

namespace SubsetSumSolver

end SubsetSumSolver

namespace SubsetSumSolver

/-! ### The claims -/

/-- C2 (counterexample): the row `-5,1` is processed successfully and prints
`sum=0`, but `0 ≤ -5` is false — the printed best sum exceeds a negative
target, because the best result is initialised to sum `0`. -/
theorem C2_counterexample :
    mapD ["-5", "1"] = Except.ok [⟨-5, 0⟩, ⟨1, 0⟩] ∧
    stepRow 1 ["-5", "1"] = RowOutcome.output "Row 1: chosen=[] sum=0 / target=-5" ∧
    ¬ valQ (bestResult ⟨-5, 0⟩ [⟨1, 0⟩]).1 ≤ valQ (⟨-5, 0⟩ : Dec) := by
  refine ⟨rfl, by decide, ?_⟩
  have h2 : bestResult ⟨-5, 0⟩ [⟨1, 0⟩] = (decZero, []) := by decide
  rw [h2]
  simp [valQ_int, valQ_decZero]

/-- C2 (amended: nonnegative target): for every row the best sum never
exceeds the target. -/
theorem C2_admissible (t : Dec) (arr : List Dec) (h : 0 ≤ t.c) :
    valQ (bestResult t arr).1 ≤ valQ t :=
  bestResult_le_target t arr ((valQ_nonneg_iff t).2 h)

/-- Witness for `C2_admissible` at target `10`, pool `[7, 6]`. -/
theorem C2_admissible_witness :
    0 ≤ (⟨10, 0⟩ : Dec).c ∧
    valQ (bestResult ⟨10, 0⟩ [⟨7, 0⟩, ⟨6, 0⟩]).1 ≤ valQ (⟨10, 0⟩ : Dec) :=
  ⟨by decide, C2_admissible ⟨10, 0⟩ [⟨7, 0⟩, ⟨6, 0⟩] (by decide)⟩

/-- C3 (counterexample): with target `1` and pool `[2, -1]` the pruned
enumeration abandons mask `3` at prefix sum `2 > 1` and returns the empty
subset with sum `0`, while the unpruned enumeration finds `[2, -1]` with sum
`1` — pruning changes the result on pools with negative elements. -/
theorem C3_counterexample :
    bestResult ⟨1, 0⟩ [⟨2, 0⟩, ⟨-1, 0⟩] = (decZero, []) ∧
    bestResultUnpruned ⟨1, 0⟩ [⟨2, 0⟩, ⟨-1, 0⟩] = (⟨1, 0⟩, [⟨2, 0⟩, ⟨-1, 0⟩]) ∧
    bestResult ⟨1, 0⟩ [⟨2, 0⟩, ⟨-1, 0⟩] ≠ bestResultUnpruned ⟨1, 0⟩ [⟨2, 0⟩, ⟨-1, 0⟩] := by
  refine ⟨by decide, by decide, by decide⟩

/-- C3 (amended: pool elements nonnegative): the early-abandon pruning does
not change the result — the pruned enumerator returns the same best sum and
the same best subset as the unpruned enumeration that sums every selected
element before testing admissibility. -/
theorem C3_pruning_sound (t : Dec) (arr : List Dec) (h : ∀ x ∈ arr, 0 ≤ x.c) :
    bestResult t arr = bestResultUnpruned t arr :=
  bestResult_eq_unpruned t arr h

/-- Witness for `C3_pruning_sound` at target `10`, pool `[5, 3, 2]`. -/
theorem C3_pruning_sound_witness :
    (∀ x ∈ [(⟨5, 0⟩ : Dec), ⟨3, 0⟩, ⟨2, 0⟩], 0 ≤ x.c) ∧
    bestResult ⟨10, 0⟩ [⟨5, 0⟩, ⟨3, 0⟩, ⟨2, 0⟩] =
      bestResultUnpruned ⟨10, 0⟩ [⟨5, 0⟩, ⟨3, 0⟩, ⟨2, 0⟩] :=
  ⟨by decide, C3_pruning_sound ⟨10, 0⟩ [⟨5, 0⟩, ⟨3, 0⟩, ⟨2, 0⟩] (by decide)⟩

/-- C4 (counterexample): the one-field row `abc` is non-blank and has fewer
than 2 fields, yet the program does not emit the short-row diagnostic: the
fields are converted *before* the length check, so the unparsable token
aborts the run and the following row is never processed. -/
theorem C4_counterexample :
    rowBlank ["abc"] = false ∧
    stepRow 1 ["abc"] = RowOutcome.abort "abc" ∧
    main [["abc"], ["10", "5"]] = ([], [], some "abc") := by
  refine ⟨by decide, by decide, by decide⟩

/-- C4 (amended: every field of the short row parses as a number): the
diagnostic line is emitted to the error stream, no output line is produced,
and processing continues with the subsequent rows. -/
theorem C4_short_row (idx : Nat) (row : List String) (rest : List (List String))
    (nums : List Dec) (h1 : rowBlank row = false) (h2 : mapD row = Except.ok nums)
    (h3 : nums.length < 2) :
    stepRow idx row = RowOutcome.shortErr (shortMsg idx) ∧
    runFrom idx (row :: rest) =
      ((runFrom (idx + 1) rest).1, shortMsg idx :: (runFrom (idx + 1) rest).2.1,
       (runFrom (idx + 1) rest).2.2) := by
  have hstep : stepRow idx row = RowOutcome.shortErr (shortMsg idx) := by
    unfold stepRow
    rw [h1, h2]
    simp only [Bool.false_eq_true, if_false]
    cases nums with
    | nil => rfl
    | cons v vs =>
      cases vs with
      | nil => rfl
      | cons w ws => exact absurd h3 (by simp only [List.length_cons]; omega)
  refine ⟨hstep, ?_⟩
  simp only [runFrom, hstep]

/-- Witness for `C4_short_row` on the one-field row `5`. -/
theorem C4_short_row_witness :
    rowBlank ["5"] = false ∧ mapD ["5"] = Except.ok [⟨5, 0⟩] ∧
    (stepRow 1 ["5"] = RowOutcome.shortErr (shortMsg 1) ∧
     runFrom 1 [["5"], ["10", "4"]] =
       ((runFrom (1 + 1) [["10", "4"]]).1,
        shortMsg 1 :: (runFrom (1 + 1) [["10", "4"]]).2.1,
        (runFrom (1 + 1) [["10", "4"]]).2.2)) :=
  ⟨by decide, rfl, C4_short_row 1 ["5"] [["10", "4"]] [⟨5, 0⟩] (by decide) rfl (by decide)⟩

/-- C6: the locale conversion of `d` — a trimmed field with exactly one
comma and no dot is parsed with the comma replaced by a dot; every other
field is parsed literally; `10,5` parses like `10.5` and `1,000.5` fails. -/
theorem C6_locale :
    (∀ s : String, (stripChars s.data).count ',' = 1 → (stripChars s.data).count '.' = 0 →
      d s = parseDecimal (String.mk ((stripChars s.data).map commaToDot))) ∧
    (∀ s : String, ¬((stripChars s.data).count ',' = 1 ∧ (stripChars s.data).count '.' = 0) →
      d s = parseDecimal (String.mk (stripChars s.data))) ∧
    d "10,5" = d "10.5" ∧ (d "10,5").isSome = true ∧ d "1,000.5" = none := by
  refine ⟨?_, ?_, by decide, by decide, by decide⟩
  · intro s h1 h2
    unfold d dtokChars
    rw [if_pos ⟨h1, h2⟩]
    rfl
  · intro s h
    unfold d dtokChars
    rw [if_neg h]
    rfl

/-- Witness for `C6_locale` on the field `10,5`. -/
theorem C6_locale_witness :
    (stripChars "10,5".data).count ',' = 1 ∧ (stripChars "10,5".data).count '.' = 0 ∧
    d "10,5" = parseDecimal (String.mk ((stripChars "10,5".data).map commaToDot)) :=
  ⟨by decide, by decide, C6_locale.1 "10,5" (by decide) (by decide)⟩

/-- C8: the best is replaced only when a surviving mask's computed sum
strictly exceeds the current best sum, and consequently the subset finally
returned is the one of the numerically smallest admissible bitmask achieving
the final best sum — no smaller admissible mask's computed sum attains
it. -/
theorem C8_tie_break (t : Dec) (arr : List Dec) :
    (∀ best m p, scanMask t arr m decZero = some p →
      stepBest t arr best m = (if decLtB best.1 p.1 = true then p else best)) ∧
    ∃ m0, m0 < 2 ^ arr.length ∧ okMask t arr m0 = true ∧
      (bestResult t arr).1 = subsetDecSum (maskSubset arr m0) ∧
      (bestResult t arr).2 = maskSubset arr m0 ∧
      ∀ m < m0, ¬(okMask t arr m = true ∧
        valQ (subsetDecSum (maskSubset arr m)) = valQ (bestResult t arr).1) := by
  constructor
  · intro best m p hp
    exact stepBest_some t arr best m p hp
  · obtain ⟨m0, h1, h2, h3, h4, _, h6⟩ :=
      bestUpto_spec t arr (2 ^ arr.length) (one_le_two_pow_len arr.length)
    exact ⟨m0, h1, h2, h3, h4, h6⟩

/-- Witness for `C8_tie_break` on target `10`, pool `[7, 6]`, mask `1`. -/
theorem C8_tie_break_witness :
    scanMask ⟨10, 0⟩ [⟨7, 0⟩, ⟨6, 0⟩] 1 decZero = some (⟨7, 0⟩, [⟨7, 0⟩]) ∧
    stepBest ⟨10, 0⟩ [⟨7, 0⟩, ⟨6, 0⟩] (decZero, []) 1 =
      (if decLtB (decZero, ([] : List Dec)).1 (⟨7, 0⟩, [(⟨7, 0⟩ : Dec)]).1 = true
       then ((⟨7, 0⟩, [⟨7, 0⟩]) : Dec × List Dec) else (decZero, [])) :=
  ⟨by decide,
   (C8_tie_break ⟨10, 0⟩ [⟨7, 0⟩, ⟨6, 0⟩]).1 (decZero, []) 1 (⟨7, 0⟩, [⟨7, 0⟩]) (by decide)⟩

/-- C9: the best sum of every processed row is nonnegative, whatever the
signs of the target and of the pool elements: the fold starts from the empty
subset with sum `0` and only ever replaces it by a strictly larger sum. -/
theorem C9_sum_nonneg (t : Dec) (arr : List Dec) : 0 ≤ valQ (bestResult t arr).1 :=
  bestResult_nonneg t arr

/-- C10: a blank field inside a row that is not entirely blank (earlier
fields parsing fine) is not skipped and not reported as a short row: `d`
fails on it exactly like on any unparsable token, so the whole run aborts
(with the stripped, empty token), leaving the stderr of earlier rows
untouched. -/
theorem C10_blank_field (pre rest : List (List String)) (cs₁ cs₂ : List String) (cf : String)
    (h1 : (runFrom 1 pre).2.2 = none)
    (h2 : rowBlank (cs₁ ++ cf :: cs₂) = false)
    (h3 : ∀ x ∈ cs₁, (d x).isSome = true)
    (h4 : stripChars cf.data = []) :
    d cf = none ∧
    runFrom 1 (pre ++ (cs₁ ++ cf :: cs₂) :: rest) =
      ((runFrom 1 pre).1, (runFrom 1 pre).2.1, some "") := by
  obtain ⟨hd, hdtok⟩ := d_of_blank cf h4
  refine ⟨hd, ?_⟩
  rw [run_aborts pre rest cs₁ cs₂ cf h1 h2 h3 hd, hdtok]

/-- Witness for `C10_blank_field` on the row `5,  ,3`. -/
theorem C10_blank_field_witness :
    rowBlank (["5"] ++ "  " :: ["3"]) = false ∧ stripChars "  ".data = [] ∧
    (d "  " = none ∧
     runFrom 1 ([] ++ (["5"] ++ "  " :: ["3"]) :: [["9", "9"]]) =
       ((runFrom 1 []).1, (runFrom 1 []).2.1, some "")) :=
  ⟨by decide, by decide,
   C10_blank_field [] [["9", "9"]] ["5"] ["3"] "  "
     (by decide) (by decide) (by decide) (by decide)⟩

end SubsetSumSolver
